import Mathlib

/-!
Shallow embedding of the serroba/rate rate-limiting library.

Instants are modelled as integers (nanoseconds since the Unix epoch, the
resolution of Go time.Time); durations are integers (nanoseconds, as Go
time.Duration).  The float64 token/level arithmetic of the bucket limiters
is modelled over the rationals, matching the real-valued data model.
Each Allow method takes the instant returned by the injected clock as an
explicit argument and returns the decision together with the new state.
-/

namespace Rate

/-- Rate nanoseconds per second, the Go time.Second constant. -/
def nsPerSec : ℤ := 1000000000

/-- Rate conversion of a duration in nanoseconds to seconds, as in Go
Duration.Seconds which divides the nanosecond count by 1e9. -/
def seconds (d : ℤ) : ℚ := (d : ℚ) / (nsPerSec : ℚ)

/-- Rate modulus of Go uint32 arithmetic. -/
def U32 : ℕ := 4294967296

/-- Rate driver that feeds a list of clock instants to an Allow step
function, returning the list of decisions and the final state. -/
def runAllow {σ : Type} (step : σ → ℤ → Bool × σ) : σ → List ℤ → List Bool × σ
  | s, [] => ([], s)
  | s, t :: ts =>
    let r := step s t
    let rest := runAllow step r.2 ts
    (r.1 :: rest.1, rest.2)

/-- Rate test whether an Except value is an error. -/
def isError {α : Type} : Except String α → Bool
  | .error _ => true
  | .ok _ => false

namespace bucket

/-- Rate embedding of bucket.TokenLimiter (src/bucket/token.go). -/
structure TokenLimiter where
  capacity : ℚ
  tokens : ℚ
  rate : ℚ
  lastRefillAt : ℤ
deriving Repr, DecidableEq

/-- Rate embedding of bucket.NewLimiterWithClock (src/bucket/token.go):
capacity and rate are uint32, the bucket starts full and stamped with the
clock reading at construction. -/
def NewLimiterWithClock (capacity rate : ℕ) (t0 : ℤ) : TokenLimiter :=
  { capacity := (capacity : ℚ)
    tokens := (capacity : ℚ)
    rate := (rate : ℚ)
    lastRefillAt := t0 }

/-- Rate embedding of TokenLimiter.refill (src/bucket/token.go): skip if the
clock moved backward, otherwise add elapsed-seconds times rate, capped at
capacity, and stamp the refill instant. -/
def TokenLimiter.refill (lim : TokenLimiter) (t : ℤ) : TokenLimiter :=
  if t < lim.lastRefillAt then lim
  else
    { lim with
      tokens := min lim.capacity (lim.tokens + seconds (t - lim.lastRefillAt) * lim.rate)
      lastRefillAt := t }

/-- Rate embedding of TokenLimiter.Allow (src/bucket/token.go): refill, then
consume one token when at least one is available. -/
def TokenLimiter.Allow (lim : TokenLimiter) (t : ℤ) : Bool × TokenLimiter :=
  let l1 := lim.refill t
  if 1 ≤ l1.tokens then (true, { l1 with tokens := l1.tokens - 1 })
  else (false, l1)

/-- Rate embedding of bucket.LeakyLimiter (src/bucket/leaky.go). -/
structure LeakyLimiter where
  capacity : ℚ
  level : ℚ
  rate : ℚ
  lastUpdatedAt : ℤ
deriving Repr, DecidableEq

/-- Rate embedding of bucket.NewLeakyLimiterWithClock (src/bucket/leaky.go):
the bucket starts empty. -/
def NewLeakyLimiterWithClock (capacity rate : ℕ) (t0 : ℤ) : LeakyLimiter :=
  { capacity := (capacity : ℚ)
    level := 0
    rate := (rate : ℚ)
    lastUpdatedAt := t0 }

/-- Rate embedding of LeakyLimiter.update (src/bucket/leaky.go): skip if the
clock moved backward, otherwise drain elapsed-seconds times rate, saturating
at zero, and stamp the update instant. -/
def LeakyLimiter.update (lim : LeakyLimiter) (t : ℤ) : LeakyLimiter :=
  if t < lim.lastUpdatedAt then lim
  else
    { lim with
      level := max 0 (lim.level - seconds (t - lim.lastUpdatedAt) * lim.rate)
      lastUpdatedAt := t }

/-- Rate embedding of LeakyLimiter.Allow (src/bucket/leaky.go): drain, then
admit when one more unit still fits under capacity. -/
def LeakyLimiter.Allow (lim : LeakyLimiter) (t : ℤ) : Bool × LeakyLimiter :=
  let l1 := lim.update t
  if l1.level + 1 ≤ l1.capacity then (true, { l1 with level := l1.level + 1 })
  else (false, l1)

/-- Rate embedding of bucket.GCRALimiter (src/bucket, GCRA part): tat is the
theoretical arrival time, emission the spacing between requests, limit the
burst tolerance, all in nanoseconds. -/
structure GCRALimiter where
  tat : ℤ
  emission : ℤ
  limit : ℤ
deriving Repr, DecidableEq

/-- Rate embedding of GCRALimiter.Allow (src/bucket, GCRA part): compute
newTAT as max(tat, now) plus emission; deny when newTAT minus the burst
tolerance is still in the future, otherwise store newTAT and admit. -/
def GCRALimiter.Allow (l : GCRALimiter) (now : ℤ) : Bool × GCRALimiter :=
  let newTAT := (if now > l.tat then now else l.tat) + l.emission
  let allowAt := newTAT - l.limit
  if allowAt > now then (false, l)
  else (true, { l with tat := newTAT })

end bucket

namespace window

/-- Rate embedding of window.FixedLimiter (src/token/registry.go, package
window part): the counter is a uint32 value, kept as a natural number below
the uint32 modulus by storing every increment modulo U32. -/
structure FixedLimiter where
  limit : ℕ
  count : ℕ
  window : ℤ
  start : ℤ
deriving Repr, DecidableEq

/-- Rate embedding of windowStart (package window): the Unix nanosecond
count divided by the window size with Go integer division, which truncates
toward zero, scaled back up. -/
def windowStart (now w : ℤ) : ℤ := now.tdiv w * w

/-- Rate embedding of NewFixedLimiterWithClock (package window): a zero
window defaults to one second; the stored start is the aligned window of the
construction instant and the counter starts at zero. -/
def NewFixedLimiterWithClock (limit : ℕ) (w : ℤ) (t0 : ℤ) : FixedLimiter :=
  let w1 := if w = 0 then nsPerSec else w
  { limit := limit, count := 0, window := w1, start := windowStart t0 w1 }

/-- Rate embedding of FixedLimiter.Allow (package window): realign the
window, resetting the counter when the aligned start changed, then admit
while the incremented uint32 counter stays at or below the limit. -/
def FixedLimiter.Allow (l : FixedLimiter) (now : ℤ) : Bool × FixedLimiter :=
  let ws := windowStart now l.window
  let l1 := if ws = l.start then l else { l with start := ws, count := 0 }
  if (l1.count + 1) % U32 ≤ l1.limit then (true, { l1 with count := (l1.count + 1) % U32 })
  else (false, l1)

/-- Rate embedding of window.SlidingLimiter (src/unnamed/part_002): a queue
of admitted instants plus a head index marking the first live entry. -/
structure SlidingLimiter where
  window : ℤ
  limit : ℕ
  q : List ℤ
  head : ℕ
deriving Repr, DecidableEq

/-- Rate embedding of NewSlidingLimiterWithClock (src/unnamed/part_002): a
zero duration defaults to one second, the queue starts empty. -/
def NewSlidingLimiterWithClock (limit : ℕ) (duration : ℤ) : SlidingLimiter :=
  let d1 := if duration = 0 then nsPerSec else duration
  { window := d1, limit := limit, q := [], head := 0 }

/-- Rate embedding of the head-advancing loop of SlidingLimiter.Allow: the
loop reads q at successive head positions, which walks the suffix of q
starting at head, and stops at the first entry not strictly before the
cutoff. -/
def advanceHeadAux (cutoff : ℤ) : List ℤ → ℕ → ℕ
  | [], head => head
  | t :: rest, head => if t < cutoff then advanceHeadAux cutoff rest (head + 1) else head

/-- Rate head position after the expiry loop of SlidingLimiter.Allow. -/
def SlidingLimiter.advance (l : SlidingLimiter) (cutoff : ℤ) : ℕ :=
  advanceHeadAux cutoff (l.q.drop l.head) l.head

/-- Rate embedding of the compaction step of SlidingLimiter.Allow: when the
head index is positive and at least half the queue length, the live suffix
is copied into a fresh queue and head resets to zero. -/
def SlidingLimiter.compact (l : SlidingLimiter) : SlidingLimiter :=
  if 0 < l.head ∧ l.q.length ≤ l.head * 2 then { l with q := l.q.drop l.head, head := 0 }
  else l

/-- Rate expiry phase of SlidingLimiter.Allow: advance head past entries
strictly before now minus window, then compact. -/
def SlidingLimiter.expire (l : SlidingLimiter) (now : ℤ) : SlidingLimiter :=
  SlidingLimiter.compact { l with head := l.advance (now - l.window) }

/-- Rate embedding of SlidingLimiter.Allow (src/unnamed/part_002): expire,
then deny if one more entry would push the live count over the limit,
otherwise append the current instant. -/
def SlidingLimiter.Allow (l : SlidingLimiter) (now : ℤ) : Bool × SlidingLimiter :=
  let l1 := l.expire now
  if l1.q.length - l1.head + 1 > l1.limit then (false, l1)
  else (true, { l1 with q := l1.q ++ [now] })

/-- Rate live entries of a sliding limiter: the queue suffix from head. -/
def SlidingLimiter.live (l : SlidingLimiter) : List ℤ := l.q.drop l.head

/-- Rate naive sliding-window comparator for the refinement claim: it keeps
only the live timestamps with no head index, drops the expired prefix, then
decides and appends exactly as the spec describes. -/
def naiveAllow (limit : ℕ) (w : ℤ) (ns : List ℤ) (now : ℤ) : Bool × List ℤ :=
  let live := ns.dropWhile (fun t => t < now - w)
  if live.length + 1 > limit then (false, live)
  else (true, live ++ [now])

/-- Rate driver for the naive sliding-window comparator. -/
def naiveRun (limit : ℕ) (w : ℤ) : List ℤ → List ℤ → List Bool × List ℤ
  | ns, [] => ([], ns)
  | ns, t :: ts =>
    let r := naiveAllow limit w ns t
    let rest := naiveRun limit w r.2 ts
    (r.1 :: rest.1, rest.2)

end window

namespace token

/-- Rate embedding of token.Limiter (src/token/rate.go): same shape as the
bucket token limiter, with float64 capacity and rate modelled over the
rationals. -/
structure Limiter where
  capacity : ℚ
  tokens : ℚ
  rate : ℚ
  lastRefillAt : ℤ
deriving Repr, DecidableEq

/-- Rate embedding of token.NewLimiterWithClock (src/token/rate.go):
negative capacity or negative rate fail with a descriptive error, otherwise
the limiter starts full and stamped with the construction instant. -/
def NewLimiterWithClock (capacity rate : ℚ) (t0 : ℤ) : Except String Limiter :=
  if capacity < 0 then .error ("capacity must be greater than zero")
  else if rate < 0 then .error ("rate must be greater than zero")
  else .ok { capacity := capacity, tokens := capacity, rate := rate, lastRefillAt := t0 }

/-- Rate embedding of token.Limiter.refill (src/token/rate.go). -/
def Limiter.refill (lim : Limiter) (t : ℤ) : Limiter :=
  if t < lim.lastRefillAt then lim
  else
    { lim with
      tokens := min lim.capacity (lim.tokens + seconds (t - lim.lastRefillAt) * lim.rate)
      lastRefillAt := t }

/-- Rate embedding of token.Limiter.Allow (src/token/rate.go). -/
def Limiter.Allow (lim : Limiter) (t : ℤ) : Bool × Limiter :=
  let l1 := lim.refill t
  if 1 ≤ l1.tokens then (true, { l1 with tokens := l1.tokens - 1 })
  else (false, l1)

/-- Rate embedding of token.Registry (src/token/registry.go): the limiter
map is an association list; a stored none models the nil limiter pointer
that the source inserts when the ignored lazy construction fails. -/
structure Registry where
  limiters : List (String × Option Limiter)
  capacity : ℚ
  rate : ℚ
deriving Repr, DecidableEq

/-- Rate preload loop of token.NewRegistry: one limiter per listed user,
propagating any construction error. -/
def mkLimiters (capacity rate : ℚ) (t0 : ℤ) :
    List String → Except String (List (String × Option Limiter))
  | [] => .ok []
  | u :: us =>
    match NewLimiterWithClock capacity rate t0 with
    | .error e => .error ("fail to create a new limiter " ++ e)
    | .ok lim =>
      match mkLimiters capacity rate t0 us with
      | .error e => .error e
      | .ok rest => .ok ((u, some lim) :: rest)

/-- Rate embedding of token.NewRegistry (src/token/registry.go): eagerly
instantiate each preloaded user, storing the capacity and rate for lazy
creation; with no users the validation in NewLimiter never runs. -/
def NewRegistry (capacity rate : ℚ) (users : List String) (t0 : ℤ) : Except String Registry :=
  match mkLimiters capacity rate t0 users with
  | .error e => .error e
  | .ok ls => .ok { limiters := ls, capacity := capacity, rate := rate }

/-- Rate helper updating the stored limiter for a key. -/
def Registry.store (r : Registry) (key : String) (lim : Option Limiter) : Registry :=
  { r with limiters := r.limiters.map (fun kv => if kv.1 = key then (key, lim) else kv) }

/-- Rate embedding of token.Registry.Allow (src/token/registry.go): look up
the key, lazily creating a limiter on a miss while discarding any error from
NewLimiter, then call Allow on the stored limiter.  A none result models the
nil-pointer panic raised when Allow runs on the nil limiter stored after a
failed lazy construction. -/
def Registry.Allow (r : Registry) (key : String) (now : ℤ) : Option (Bool × Registry) :=
  match r.limiters.lookup key with
  | some (some lim) =>
    let p := lim.Allow now
    some (p.1, r.store key (some p.2))
  | some none => none
  | none =>
    match NewLimiterWithClock r.capacity r.rate now with
    | .ok lim =>
      let p := lim.Allow now
      some (p.1, { r with limiters := (key, some p.2) :: r.limiters })
    | .error _ => none

end token

/-- Rate count of admitted decisions in a decision list. -/
def countTrue : List Bool → ℕ
  | [] => 0
  | b :: bs => (if b then 1 else 0) + countTrue bs

/-- Rate invariant carried by a token-bucket state: nonnegative
configuration and a token count within the capacity. -/
def bucket.TBInv (l : bucket.TokenLimiter) : Prop :=
  0 ≤ l.capacity ∧ 0 ≤ l.rate ∧ 0 ≤ l.tokens ∧ l.tokens ≤ l.capacity

end Rate

namespace Rate.window

/-! Helper lemmas about the sliding-window queue mechanics. -/

theorem advanceHeadAux_drop (c : ℤ) :
    ∀ (l : List ℤ) (q : List ℤ) (head : ℕ), q.drop head = l →
      q.drop (advanceHeadAux c l head) = l.dropWhile (fun t => t < c)
  | [], q, head, h => by simpa [advanceHeadAux] using h
  | t :: rest, q, head, h => by
    by_cases hc : t < c
    · have hdrop : q.drop (head + 1) = rest := by
        rw [← List.tail_drop, h]
        rfl
      simp only [advanceHeadAux, if_pos hc]
      rw [advanceHeadAux_drop c rest q (head + 1) hdrop]
      rw [List.dropWhile_cons_of_pos (by simpa using hc)]
    · simp only [advanceHeadAux, if_neg hc]
      rw [h, List.dropWhile_cons_of_neg (by simpa using hc)]

theorem advanceHeadAux_ge (c : ℤ) :
    ∀ (l : List ℤ) (head : ℕ), head ≤ advanceHeadAux c l head
  | [], head => le_refl head
  | t :: rest, head => by
    by_cases hc : t < c
    · simp only [advanceHeadAux, if_pos hc]
      exact le_trans (Nat.le_succ head) (advanceHeadAux_ge c rest (head + 1))
    · simp [advanceHeadAux, if_neg hc]

theorem advanceHeadAux_le (c : ℤ) :
    ∀ (l : List ℤ) (head : ℕ), advanceHeadAux c l head ≤ head + l.length
  | [], head => by simp [advanceHeadAux]
  | t :: rest, head => by
    by_cases hc : t < c
    · simp only [advanceHeadAux, if_pos hc]
      have := advanceHeadAux_le c rest (head + 1)
      simpa [Nat.add_assoc, Nat.add_comm 1 rest.length] using this
    · simp [advanceHeadAux, if_neg hc]

theorem advanceHeadAux_dropWhile (c : ℤ) :
    ∀ (l : List ℤ) (head : ℕ),
      advanceHeadAux c (l.dropWhile (fun t => t < c)) head = head
  | [], head => by simp [advanceHeadAux]
  | t :: rest, head => by
    by_cases hc : t < c
    · rw [List.dropWhile_cons_of_pos (by simpa using hc)]
      exact advanceHeadAux_dropWhile c rest head
    · rw [List.dropWhile_cons_of_neg (by simpa using hc)]
      simp [advanceHeadAux, if_neg hc]

theorem compact_live (l : SlidingLimiter) : (SlidingLimiter.compact l).live = l.live := by
  unfold SlidingLimiter.compact SlidingLimiter.live
  split <;> simp

theorem compact_window (l : SlidingLimiter) :
    (SlidingLimiter.compact l).window = l.window := by
  unfold SlidingLimiter.compact
  split <;> rfl

theorem compact_limit (l : SlidingLimiter) :
    (SlidingLimiter.compact l).limit = l.limit := by
  unfold SlidingLimiter.compact
  split <;> rfl

theorem compact_head_le (l : SlidingLimiter) (h : l.head ≤ l.q.length) :
    (SlidingLimiter.compact l).head ≤ (SlidingLimiter.compact l).q.length := by
  unfold SlidingLimiter.compact
  split
  · simp
  · simpa using h

theorem compact_logical_size (l : SlidingLimiter) :
    (SlidingLimiter.compact l).q.length - (SlidingLimiter.compact l).head =
      l.q.length - l.head := by
  unfold SlidingLimiter.compact
  split <;> simp

theorem compact_compact (l : SlidingLimiter) :
    (SlidingLimiter.compact l).compact = l.compact := by
  unfold SlidingLimiter.compact
  split
  · simp
  · rfl

theorem expire_live (l : SlidingLimiter) (now : ℤ) :
    (l.expire now).live = l.live.dropWhile (fun t => t < now - l.window) := by
  unfold SlidingLimiter.expire
  rw [compact_live]
  show l.q.drop (l.advance (now - l.window)) = _
  exact advanceHeadAux_drop (now - l.window) (l.q.drop l.head) l.q l.head rfl

theorem expire_window (l : SlidingLimiter) (now : ℤ) :
    (l.expire now).window = l.window := by
  unfold SlidingLimiter.expire
  rw [compact_window]

theorem expire_limit (l : SlidingLimiter) (now : ℤ) :
    (l.expire now).limit = l.limit := by
  unfold SlidingLimiter.expire
  rw [compact_limit]

theorem expire_head_le (l : SlidingLimiter) (now : ℤ) (h : l.head ≤ l.q.length) :
    (l.expire now).head ≤ (l.expire now).q.length := by
  unfold SlidingLimiter.expire
  apply compact_head_le
  show l.advance (now - l.window) ≤ l.q.length
  calc l.advance (now - l.window) ≤ l.head + (l.q.drop l.head).length :=
        advanceHeadAux_le _ _ _
    _ = l.head + (l.q.length - l.head) := by rw [List.length_drop]
    _ = l.q.length := by omega

theorem live_length (l : SlidingLimiter) : l.live.length = l.q.length - l.head := by
  unfold SlidingLimiter.live
  exact List.length_drop _ _

theorem expire_expire (l : SlidingLimiter) (now : ℤ) :
    (l.expire now).expire now = l.expire now := by
  have hwin : (l.expire now).window = l.window := expire_window l now
  have hadv : (l.expire now).advance (now - (l.expire now).window) = (l.expire now).head := by
    unfold SlidingLimiter.advance
    rw [hwin]
    have : (l.expire now).q.drop (l.expire now).head =
        l.live.dropWhile (fun t => t < now - l.window) := expire_live l now
    rw [this]
    exact advanceHeadAux_dropWhile _ _ _
  show SlidingLimiter.compact
      { l.expire now with head := (l.expire now).advance (now - (l.expire now).window) } =
    l.expire now
  rw [hadv]
  show (l.expire now).compact = l.expire now
  unfold SlidingLimiter.expire
  rw [compact_compact]

theorem allow_step (l : SlidingLimiter) (now : ℤ) (h : l.head ≤ l.q.length) :
    (l.Allow now).1 = (naiveAllow l.limit l.window l.live now).1 ∧
    (l.Allow now).2.live = (naiveAllow l.limit l.window l.live now).2 ∧
    (l.Allow now).2.head ≤ (l.Allow now).2.q.length ∧
    (l.Allow now).2.limit = l.limit ∧ (l.Allow now).2.window = l.window := by
  have hlive : (l.expire now).live = l.live.dropWhile (fun t => t < now - l.window) :=
    expire_live l now
  have hlen : (l.expire now).q.length - (l.expire now).head =
      (l.live.dropWhile (fun t => t < now - l.window)).length := by
    rw [← live_length, hlive]
  have hhd : (l.expire now).head ≤ (l.expire now).q.length := expire_head_le l now h
  have hlim : (l.expire now).limit = l.limit := expire_limit l now
  have hwin : (l.expire now).window = l.window := expire_window l now
  unfold SlidingLimiter.Allow naiveAllow
  by_cases hd : (l.expire now).q.length - (l.expire now).head + 1 > (l.expire now).limit
  · rw [if_pos hd, if_pos (by rw [← hlen, ← hlim]; exact hd)]
    exact ⟨rfl, by simpa using hlive, hhd, hlim, hwin⟩
  · rw [if_neg hd, if_neg (by rw [← hlen, ← hlim]; exact hd)]
    refine ⟨rfl, ?_, ?_, hlim, hwin⟩
    · show ((l.expire now).q ++ [now]).drop (l.expire now).head = _
      rw [List.drop_append_of_le_length hhd]
      rw [← hlive]
      rfl
    · show (l.expire now).head ≤ ((l.expire now).q ++ [now]).length
      simp only [List.length_append, List.length_cons, List.length_nil]
      omega

theorem run_simulation (ts : List ℤ) :
    ∀ (l : SlidingLimiter) (ns : List ℤ), l.head ≤ l.q.length → ns = l.live →
      (runAllow SlidingLimiter.Allow l ts).1 = (naiveRun l.limit l.window ns ts).1 ∧
      (runAllow SlidingLimiter.Allow l ts).2.head ≤
        (runAllow SlidingLimiter.Allow l ts).2.q.length := by
  induction ts with
  | nil => intro l ns h hns; exact ⟨rfl, h⟩
  | cons t ts ih =>
    intro l ns h hns
    have step := allow_step l t h
    have ihres := ih (l.Allow t).2 (naiveAllow l.limit l.window l.live t).2
      step.2.2.1 step.2.1.symm
    constructor
    · show (l.Allow t).1 :: (runAllow SlidingLimiter.Allow (l.Allow t).2 ts).1 = _
      rw [hns]
      show _ = (naiveAllow l.limit l.window l.live t).1 ::
        (naiveRun l.limit l.window (naiveAllow l.limit l.window l.live t).2 ts).1
      rw [step.1, ihres.1, step.2.2.2.1, step.2.2.2.2]
    · exact ihres.2

/-! Helper lemmas about membership in the expired queue. -/

theorem mem_dropWhile_of_le (c x : ℤ) :
    ∀ (l : List ℤ), x ∈ l → c ≤ x → x ∈ l.dropWhile (fun t => t < c)
  | a :: rest, hx, hc => by
    by_cases ha : a < c
    · rw [List.dropWhile_cons_of_pos (by simpa using ha)]
      rcases List.mem_cons.mp hx with rfl | hx
      · omega
      · exact mem_dropWhile_of_le c x rest hx hc
    · rw [List.dropWhile_cons_of_neg (by simpa using ha)]
      exact hx

theorem le_of_mem_dropWhile_sorted (c x : ℤ) :
    ∀ (l : List ℤ), l.Sorted (· ≤ ·) → x ∈ l.dropWhile (fun t => t < c) → c ≤ x
  | [], _, hx => by simp at hx
  | a :: rest, hs, hx => by
    by_cases ha : a < c
    · rw [List.dropWhile_cons_of_pos (by simpa using ha)] at hx
      exact le_of_mem_dropWhile_sorted c x rest (List.Sorted.of_cons hs) hx
    · rw [List.dropWhile_cons_of_neg (by simpa using ha)] at hx
      rcases List.mem_cons.mp hx with rfl | hx
      · omega
      · have := (List.sorted_cons.mp hs).1 x hx
        omega

end Rate.window

namespace Rate.bucket

/-! Helper lemmas for monotone denial and the token-bucket invariant. -/

theorem seconds_self_zero (t : ℤ) (r : ℚ) : seconds (t - t) * r = 0 := by
  simp [seconds]

theorem refill_le_last (l : TokenLimiter) (t : ℤ) : t ≤ (l.refill t).lastRefillAt := by
  unfold TokenLimiter.refill
  by_cases h : t < l.lastRefillAt
  · rw [if_pos h]
    exact le_of_lt h
  · rw [if_neg h]

theorem refill_tokens_le (l : TokenLimiter) (t : ℤ) (hle : t ≤ l.lastRefillAt) :
    (l.refill t).tokens ≤ l.tokens := by
  unfold TokenLimiter.refill
  by_cases h : t < l.lastRefillAt
  · rw [if_pos h]
  · rw [if_neg h]
    have ht : t = l.lastRefillAt := le_antisymm hle (not_lt.mp h)
    show min l.capacity (l.tokens + seconds (t - l.lastRefillAt) * l.rate) ≤ l.tokens
    rw [← ht, seconds_self_zero, add_zero]
    exact min_le_right _ _

theorem refill_capacity (l : TokenLimiter) (t : ℤ) :
    (l.refill t).capacity = l.capacity := by
  unfold TokenLimiter.refill
  by_cases h : t < l.lastRefillAt
  · rw [if_pos h]
  · rw [if_neg h]

theorem tb_deny_stable (l : TokenLimiter) (t : ℤ) (h : (l.Allow t).1 = false) :
    ((l.Allow t).2.Allow t).1 = false := by
  by_cases c : 1 ≤ (l.refill t).tokens
  · simp [TokenLimiter.Allow, c] at h
  · have hst : (l.Allow t).2 = l.refill t := by
      simp [TokenLimiter.Allow, c]
    rw [hst]
    have hle : ((l.refill t).refill t).tokens ≤ (l.refill t).tokens :=
      refill_tokens_le (l.refill t) t (refill_le_last l t)
    have c2 : ¬ 1 ≤ ((l.refill t).refill t).tokens := by
      intro hc
      exact c (le_trans hc hle)
    simp [TokenLimiter.Allow, c2]

theorem update_le_last (l : LeakyLimiter) (t : ℤ) : t ≤ (l.update t).lastUpdatedAt := by
  unfold LeakyLimiter.update
  by_cases h : t < l.lastUpdatedAt
  · rw [if_pos h]
    exact le_of_lt h
  · rw [if_neg h]

theorem update_level_ge (l : LeakyLimiter) (t : ℤ) (hle : t ≤ l.lastUpdatedAt) :
    l.level ≤ (l.update t).level := by
  unfold LeakyLimiter.update
  by_cases h : t < l.lastUpdatedAt
  · rw [if_pos h]
  · rw [if_neg h]
    have ht : t = l.lastUpdatedAt := le_antisymm hle (not_lt.mp h)
    show l.level ≤ max 0 (l.level - seconds (t - l.lastUpdatedAt) * l.rate)
    rw [← ht, seconds_self_zero, sub_zero]
    exact le_max_right _ _

theorem update_capacity (l : LeakyLimiter) (t : ℤ) :
    (l.update t).capacity = l.capacity := by
  unfold LeakyLimiter.update
  by_cases h : t < l.lastUpdatedAt
  · rw [if_pos h]
  · rw [if_neg h]

theorem leaky_deny_stable (l : LeakyLimiter) (t : ℤ) (h : (l.Allow t).1 = false) :
    ((l.Allow t).2.Allow t).1 = false := by
  by_cases c : (l.update t).level + 1 ≤ (l.update t).capacity
  · simp [LeakyLimiter.Allow, c] at h
  · have hst : (l.Allow t).2 = l.update t := by
      simp [LeakyLimiter.Allow, c]
    rw [hst]
    have hge : (l.update t).level ≤ ((l.update t).update t).level :=
      update_level_ge (l.update t) t (update_le_last l t)
    have hcap : ((l.update t).update t).capacity = (l.update t).capacity :=
      update_capacity (l.update t) t
    have c2 : ¬ ((l.update t).update t).level + 1 ≤ ((l.update t).update t).capacity := by
      rw [hcap]
      intro hc
      exact c (le_trans (by linarith) hc)
    simp [LeakyLimiter.Allow, c2]

theorem gcra_deny_stable (l : GCRALimiter) (now : ℤ) (h : (l.Allow now).1 = false) :
    ((l.Allow now).2.Allow now).1 = false := by
  by_cases c : (if now > l.tat then now else l.tat) + l.emission - l.limit > now
  · have hst : (l.Allow now).2 = l := by
      simp [GCRALimiter.Allow, c]
    rw [hst]
    exact h
  · simp [GCRALimiter.Allow, c] at h

theorem seconds_nonneg (d : ℤ) (hd : 0 ≤ d) : 0 ≤ seconds d := by
  unfold seconds
  apply div_nonneg
  · exact_mod_cast hd
  · norm_num [nsPerSec]

theorem refill_inv (l : TokenLimiter) (t : ℤ) (h : TBInv l) : TBInv (l.refill t) := by
  unfold TokenLimiter.refill
  by_cases hc : t < l.lastRefillAt
  · rw [if_pos hc]
    exact h
  · rw [if_neg hc]
    obtain ⟨h1, h2, h3, h4⟩ := h
    refine ⟨h1, h2, ?_, ?_⟩
    · show 0 ≤ min l.capacity (l.tokens + seconds (t - l.lastRefillAt) * l.rate)
      apply le_min h1
      have hsec : 0 ≤ seconds (t - l.lastRefillAt) * l.rate :=
        mul_nonneg (seconds_nonneg _ (by omega)) h2
      linarith
    · exact min_le_left _ _

theorem allow_inv (l : TokenLimiter) (t : ℤ) (h : TBInv l) : TBInv (l.Allow t).2 := by
  have h1 := refill_inv l t h
  by_cases c : 1 ≤ (l.refill t).tokens
  · have hst : (l.Allow t).2 = { l.refill t with tokens := (l.refill t).tokens - 1 } := by
      simp [TokenLimiter.Allow, c]
    rw [hst]
    obtain ⟨ha, hb, hc2, hd⟩ := h1
    refine ⟨ha, hb, ?_, ?_⟩
    · show (0:ℚ) ≤ (l.refill t).tokens - 1
      linarith
    · show (l.refill t).tokens - 1 ≤ (l.refill t).capacity
      linarith
  · have hst : (l.Allow t).2 = l.refill t := by
      simp [TokenLimiter.Allow, c]
    rw [hst]
    exact h1

theorem allow_capacity (l : TokenLimiter) (t : ℤ) :
    (l.Allow t).2.capacity = l.capacity := by
  by_cases c : 1 ≤ (l.refill t).tokens
  · have hst : (l.Allow t).2 = { l.refill t with tokens := (l.refill t).tokens - 1 } := by
      simp [TokenLimiter.Allow, c]
    rw [hst]
    exact refill_capacity l t
  · have hst : (l.Allow t).2 = l.refill t := by
      simp [TokenLimiter.Allow, c]
    rw [hst]
    exact refill_capacity l t

theorem run_inv (ts : List ℤ) :
    ∀ (l : TokenLimiter), TBInv l →
      TBInv (runAllow TokenLimiter.Allow l ts).2 ∧
      (runAllow TokenLimiter.Allow l ts).2.capacity = l.capacity := by
  induction ts with
  | nil => intro l h; exact ⟨h, rfl⟩
  | cons t ts ih =>
    intro l h
    have hstep := allow_inv l t h
    have hres := ih (l.Allow t).2 hstep
    exact ⟨hres.1, hres.2.trans (allow_capacity l t)⟩

theorem allow_last_mono (l : TokenLimiter) (t : ℤ) :
    l.lastRefillAt ≤ (l.Allow t).2.lastRefillAt := by
  have hr : l.lastRefillAt ≤ (l.refill t).lastRefillAt := by
    unfold TokenLimiter.refill
    by_cases h : t < l.lastRefillAt
    · rw [if_pos h]
    · rw [if_neg h]
      exact not_lt.mp h
  by_cases c : 1 ≤ (l.refill t).tokens
  · have hst : (l.Allow t).2 = { l.refill t with tokens := (l.refill t).tokens - 1 } := by
      simp [TokenLimiter.Allow, c]
    rw [hst]
    exact hr
  · have hst : (l.Allow t).2 = l.refill t := by
      simp [TokenLimiter.Allow, c]
    rw [hst]
    exact hr

end Rate.bucket

namespace Rate.window

theorem fw_deny_stable (l : FixedLimiter) (now : ℤ) (h : (l.Allow now).1 = false) :
    ((l.Allow now).2.Allow now).1 = false := by
  by_cases hr : windowStart now l.window = l.start
  · by_cases c : (l.count + 1) % U32 ≤ l.limit
    · simp [FixedLimiter.Allow, hr, c] at h
    · have hst : (l.Allow now).2 = l := by
        simp [FixedLimiter.Allow, hr, c]
      rw [hst]
      exact h
  · by_cases c : (0 + 1) % U32 ≤ l.limit
    · simp [FixedLimiter.Allow, hr, c] at h
    · have hst : (l.Allow now).2 = { l with start := windowStart now l.window, count := 0 } := by
        simp [FixedLimiter.Allow, hr, c]
      rw [hst]
      simp [FixedLimiter.Allow, c]

theorem sliding_deny_stable (l : SlidingLimiter) (now : ℤ) (h : (l.Allow now).1 = false) :
    ((l.Allow now).2.Allow now).1 = false := by
  by_cases c : (l.expire now).q.length - (l.expire now).head + 1 > (l.expire now).limit
  · have hst : (l.Allow now).2 = l.expire now := by
      simp [SlidingLimiter.Allow, c]
    rw [hst]
    have hexp : (l.expire now).expire now = l.expire now := expire_expire l now
    simp [SlidingLimiter.Allow, hexp, c]
  · simp [SlidingLimiter.Allow, c] at h

theorem fw_bound_aux (ts : List ℤ) :
    ∀ (l : FixedLimiter) (ws : ℤ),
      (∀ t ∈ ts, windowStart t l.window = ws) →
      l.limit ≤ U32 - 2 → l.count ≤ l.limit →
      countTrue (runAllow FixedLimiter.Allow l ts).1 +
        (if l.start = ws then l.count else 0) ≤ l.limit := by
  induction ts with
  | nil =>
    intro l ws _ hlim hcount
    show countTrue [] + (if l.start = ws then l.count else 0) ≤ l.limit
    by_cases hs : l.start = ws
    · simp [countTrue, hs, hcount]
    · simp [countTrue, hs]
  | cons t ts ih =>
    intro l ws hall hlim hcount
    have hws : windowStart t l.window = ws := hall t (List.mem_cons_self t ts)
    have hrest : ∀ x ∈ ts, windowStart x l.window = ws :=
      fun x hx => hall x (List.mem_cons_of_mem t hx)
    have hrun : (runAllow FixedLimiter.Allow l (t :: ts)).1 =
        (l.Allow t).1 :: (runAllow FixedLimiter.Allow (l.Allow t).2 ts).1 := rfl
    have hU : U32 = 4294967296 := rfl
    rw [hrun]
    by_cases hs : windowStart t l.window = l.start
    · have hstart : l.start = ws := hs.symm.trans hws
      by_cases c : (l.count + 1) % U32 ≤ l.limit
      · have hmod : (l.count + 1) % U32 = l.count + 1 := by
          apply Nat.mod_eq_of_lt
          omega
        have hall2 : l.Allow t = (true, { l with count := l.count + 1 }) := by
          simp only [FixedLimiter.Allow]
          rw [if_pos hs, if_pos c, hmod]
        rw [hmod] at c
        rw [hall2]
        have hrec := ih { l with count := l.count + 1 } ws hrest hlim c
        dsimp only at hrec
        rw [if_pos hstart] at hrec
        dsimp only
        simp [countTrue]
        rw [if_pos hstart]
        omega
      · have hall2 : l.Allow t = (false, l) := by
          simp only [FixedLimiter.Allow]
          rw [if_pos hs, if_neg c]
        rw [hall2]
        have hrec := ih l ws hrest hlim hcount
        rw [if_pos hstart] at hrec
        dsimp only
        simp [countTrue]
        rw [if_pos hstart]
        omega
    · have hstart : ¬ l.start = ws := by
        intro he
        exact hs (hws.trans he.symm)
      by_cases c : (0 + 1) % U32 ≤ l.limit
      · have hmod : (0 + 1) % U32 = 1 := by
          apply Nat.mod_eq_of_lt
          omega
        have hall2 : l.Allow t =
            (true, { l with start := windowStart t l.window, count := 1 }) := by
          simp only [FixedLimiter.Allow]
          rw [if_neg hs, if_pos c, hmod]
        rw [hmod] at c
        rw [hall2]
        have hrec := ih { l with start := windowStart t l.window, count := 1 } ws hrest hlim c
        dsimp only at hrec
        rw [if_pos hws] at hrec
        dsimp only
        simp [countTrue]
        rw [if_neg hstart]
        omega
      · have hall2 : l.Allow t =
            (false, { l with start := windowStart t l.window, count := 0 }) := by
          simp only [FixedLimiter.Allow]
          rw [if_neg hs, if_neg c]
        rw [hall2]
        have hrec := ih { l with start := windowStart t l.window, count := 0 } ws hrest hlim
          (Nat.zero_le _)
        dsimp only at hrec
        rw [if_pos hws] at hrec
        dsimp only
        simp [countTrue]
        rw [if_neg hstart]
        omega

theorem fw_maxlimit_all_true (n : ℕ) :
    ∀ (l : FixedLimiter), l.limit = U32 - 1 → l.start = windowStart 0 l.window →
      (runAllow FixedLimiter.Allow l (List.replicate n 0)).1 = List.replicate n true := by
  induction n with
  | zero => intro l _ _; rfl
  | succ n ih =>
    intro l hlim hstart
    have hU : U32 = 4294967296 := rfl
    have hcond : (l.count + 1) % U32 ≤ l.limit := by
      rw [hlim]
      have := Nat.mod_lt (l.count + 1) (show 0 < U32 by omega)
      omega
    have hall2 : l.Allow 0 = (true, { l with count := (l.count + 1) % U32 }) := by
      simp only [FixedLimiter.Allow]
      rw [if_pos hstart.symm, if_pos hcond]
    show (l.Allow 0).1 :: (runAllow FixedLimiter.Allow (l.Allow 0).2
        (List.replicate n 0)).1 = true :: List.replicate n true
    rw [hall2]
    show true :: (runAllow FixedLimiter.Allow
        { l with count := (l.count + 1) % U32 } (List.replicate n 0)).1 =
      true :: List.replicate n true
    rw [ih { l with count := (l.count + 1) % U32 } hlim hstart]

end Rate.window

namespace Rate

theorem countTrue_replicate (n : ℕ) : countTrue (List.replicate n true) = n := by
  induction n with
  | zero => rfl
  | succ n ih =>
    show countTrue (true :: List.replicate n true) = n + 1
    simp [countTrue, ih]
    omega

end Rate

namespace Rate

/-- C10: the sliding limiter with head index and tail-copy compaction returns
exactly the decision sequence of the naive live-timestamps implementation;
compaction changes neither the live entries nor the logical size; and the
head index never exceeds the queue length on any run from a fresh limiter. -/
theorem C10_sliding_refines_naive :
    (∀ (limit : ℕ) (w : ℤ) (ts : List ℤ),
      (runAllow window.SlidingLimiter.Allow (window.NewSlidingLimiterWithClock limit w) ts).1 =
        (window.naiveRun limit (window.NewSlidingLimiterWithClock limit w).window [] ts).1) ∧
    (∀ (limit : ℕ) (w : ℤ) (ts : List ℤ),
      (runAllow window.SlidingLimiter.Allow (window.NewSlidingLimiterWithClock limit w) ts).2.head ≤
        (runAllow window.SlidingLimiter.Allow
          (window.NewSlidingLimiterWithClock limit w) ts).2.q.length) ∧
    (∀ l : window.SlidingLimiter,
      (window.SlidingLimiter.compact l).live = l.live ∧
      (window.SlidingLimiter.compact l).q.length - (window.SlidingLimiter.compact l).head =
        l.q.length - l.head) := by
  refine ⟨?_, ?_, ?_⟩
  · intro limit w ts
    exact (window.run_simulation ts (window.NewSlidingLimiterWithClock limit w) []
      (by simp [window.NewSlidingLimiterWithClock]) rfl).1
  · intro limit w ts
    exact (window.run_simulation ts (window.NewSlidingLimiterWithClock limit w) []
      (by simp [window.NewSlidingLimiterWithClock]) rfl).2
  · intro l
    exact ⟨window.compact_live l, window.compact_logical_size l⟩

/-- C1 (corrected): under a monotone clock the live queue is sorted, and an
entry admitted at t0 survives the expiry phase of an Allow call at instant
now exactly when now is at or before t0 plus the window: the expiry loop
removes only entries strictly older than the window, so an entry exactly
window old is still counted, and it stops being counted only strictly after
t0 plus the window. -/
theorem C1_sliding_expiry_boundary (l : window.SlidingLimiter) (now t0 : ℤ)
    (hs : l.live.Sorted (· ≤ ·)) (hmem : t0 ∈ l.live) :
    t0 ∈ (l.expire now).live ↔ now ≤ t0 + l.window := by
  rw [window.expire_live]
  constructor
  · intro hx
    have := window.le_of_mem_dropWhile_sorted (now - l.window) t0 l.live hs hx
    omega
  · intro h
    exact window.mem_dropWhile_of_le (now - l.window) t0 l.live hmem (by omega)

/-- C1 witness: a concrete sorted queue with entries at instants 0 and 30,
window 60: the entry admitted at 0 is still live at instant exactly 60. -/
theorem C1_sliding_expiry_boundary_witness :
    List.Sorted (· ≤ ·)
      (window.SlidingLimiter.live { window := 60, limit := 2, q := [0, 30], head := 0 }) ∧
    ((0:ℤ) ∈ (window.SlidingLimiter.expire
        { window := 60, limit := 2, q := [0, 30], head := 0 } 60).live ↔
      (60:ℤ) ≤ 0 + (60:ℤ)) :=
  ⟨by decide,
   C1_sliding_expiry_boundary { window := 60, limit := 2, q := [0, 30], head := 0 } 60 0
     (by decide) (by decide)⟩

/-- C1 counterexample: with limit 1 and window 60, a request admitted at
instant 0 is still counted by the Allow call at instant exactly 60 (the
call is denied and the entry survives the expiry loop), contradicting the
claim that it has expired by then. -/
theorem C1_sliding_expiry_boundary_counterexample :
    ((window.NewSlidingLimiterWithClock 1 60).Allow 0).1 = true ∧
    (((window.NewSlidingLimiterWithClock 1 60).Allow 0).2.Allow 60).1 = false ∧
    (0:ℤ) ∈ (((window.NewSlidingLimiterWithClock 1 60).Allow 0).2.expire 60).live := by
  decide

/-- C4: after the constructor has normalized rate and burst into the
emission interval and burst tolerance, a GCRA Allow call admits exactly when
max(tat, now) plus emission minus the burst tolerance is at or before now;
on admission the stored tat becomes max(previous tat, now) plus emission,
and on denial the state is unchanged. -/
theorem C4_gcra_allow_semantics (l : bucket.GCRALimiter) (now : ℤ) :
    (l.Allow now =
      if max l.tat now + l.emission - l.limit ≤ now then
        (true, { l with tat := max l.tat now + l.emission })
      else (false, l)) ∧
    ((l.Allow now).1 = true ↔ max l.tat now + l.emission - l.limit ≤ now) := by
  have hmax : (if now > l.tat then now else l.tat) = max l.tat now := by
    rcases le_or_lt now l.tat with h | h
    · rw [if_neg (not_lt.mpr h), max_eq_left h]
    · rw [if_pos h, max_eq_right (le_of_lt h)]
  have heq : l.Allow now =
      if max l.tat now + l.emission - l.limit ≤ now then
        (true, { l with tat := max l.tat now + l.emission })
      else (false, l) := by
    show (if (if now > l.tat then now else l.tat) + l.emission - l.limit > now then
        (false, l)
      else (true, { l with tat := (if now > l.tat then now else l.tat) + l.emission })) = _
    rw [hmax]
    by_cases h : max l.tat now + l.emission - l.limit ≤ now
    · rw [if_neg (not_lt.mpr h), if_pos h]
    · rw [if_pos (not_le.mp h), if_neg h]
  refine ⟨heq, ?_⟩
  rw [heq]
  by_cases h : max l.tat now + l.emission - l.limit ≤ now
  · simp [h]
  · simp [h]

/-- C5: when the clock reading is strictly before the stored timestamp, the
token-bucket refill and the leaky-bucket drain change nothing, and the
admission decision is taken on the unchanged tokens and level values. -/
theorem C5_backward_clock_frame :
    (∀ (l : bucket.TokenLimiter) (t : ℤ), t < l.lastRefillAt →
      l.refill t = l ∧ (l.Allow t).1 = decide (1 ≤ l.tokens)) ∧
    (∀ (l : bucket.LeakyLimiter) (t : ℤ), t < l.lastUpdatedAt →
      l.update t = l ∧ (l.Allow t).1 = decide (l.level + 1 ≤ l.capacity)) := by
  constructor
  · intro l t h
    have hr : l.refill t = l := by
      unfold bucket.TokenLimiter.refill
      rw [if_pos h]
    refine ⟨hr, ?_⟩
    show (let l1 := l.refill t;
      if 1 ≤ l1.tokens then (true, { l1 with tokens := l1.tokens - 1 })
      else (false, l1)).1 = decide (1 ≤ l.tokens)
    rw [hr]
    by_cases h1 : 1 ≤ l.tokens
    · simp [h1]
    · simp [h1]
  · intro l t h
    have hr : l.update t = l := by
      unfold bucket.LeakyLimiter.update
      rw [if_pos h]
    refine ⟨hr, ?_⟩
    show (let l1 := l.update t;
      if l1.level + 1 ≤ l1.capacity then (true, { l1 with level := l1.level + 1 })
      else (false, l1)).1 = decide (l.level + 1 ≤ l.capacity)
    rw [hr]
    by_cases h1 : l.level + 1 ≤ l.capacity
    · simp [h1]
    · simp [h1]

/-- C5 witness: a token bucket stamped at instant 10 queried at instant 3
and a leaky bucket stamped at instant 7 queried at instant 2 are both left
unchanged by the skipped update. -/
theorem C5_backward_clock_frame_witness :
    ((3:ℤ) < (10:ℤ) ∧
      bucket.TokenLimiter.refill
          { capacity := 5, tokens := 2, rate := 1, lastRefillAt := 10 } 3 =
        { capacity := 5, tokens := 2, rate := 1, lastRefillAt := 10 } ∧
      (bucket.TokenLimiter.Allow
          { capacity := 5, tokens := 2, rate := 1, lastRefillAt := 10 } 3).1 =
        decide ((1:ℚ) ≤ 2)) ∧
    ((2:ℤ) < (7:ℤ) ∧
      bucket.LeakyLimiter.update
          { capacity := 1, level := 1, rate := 2, lastUpdatedAt := 7 } 2 =
        { capacity := 1, level := 1, rate := 2, lastUpdatedAt := 7 } ∧
      (bucket.LeakyLimiter.Allow
          { capacity := 1, level := 1, rate := 2, lastUpdatedAt := 7 } 2).1 =
        decide ((1:ℚ) + 1 ≤ 1)) := by
  refine ⟨⟨by decide, ?_, ?_⟩, ⟨by decide, ?_, ?_⟩⟩
  · exact (C5_backward_clock_frame.1 _ 3 (by decide)).1
  · exact (C5_backward_clock_frame.1 _ 3 (by decide)).2
  · exact (C5_backward_clock_frame.2 _ 2 (by decide)).1
  · exact (C5_backward_clock_frame.2 _ 2 (by decide)).2

/-- C6: monotone denial for all five limiters: whenever an Allow call is
denied and the clock returns the same instant on the next call, that next
Allow call is denied as well. -/
theorem C6_monotone_denial :
    (∀ (l : bucket.TokenLimiter) (t : ℤ),
      (l.Allow t).1 = false → ((l.Allow t).2.Allow t).1 = false) ∧
    (∀ (l : bucket.LeakyLimiter) (t : ℤ),
      (l.Allow t).1 = false → ((l.Allow t).2.Allow t).1 = false) ∧
    (∀ (l : window.FixedLimiter) (t : ℤ),
      (l.Allow t).1 = false → ((l.Allow t).2.Allow t).1 = false) ∧
    (∀ (l : window.SlidingLimiter) (t : ℤ),
      (l.Allow t).1 = false → ((l.Allow t).2.Allow t).1 = false) ∧
    (∀ (l : bucket.GCRALimiter) (t : ℤ),
      (l.Allow t).1 = false → ((l.Allow t).2.Allow t).1 = false) :=
  ⟨bucket.tb_deny_stable, bucket.leaky_deny_stable, window.fw_deny_stable,
   window.sliding_deny_stable, bucket.gcra_deny_stable⟩

/-- C6 witness: concrete denied states for each of the five limiters whose
repeated Allow call at the same instant is denied again. -/
theorem C6_monotone_denial_witness :
    (((bucket.TokenLimiter.Allow
        { capacity := 0, tokens := 0, rate := 0, lastRefillAt := 1 } 0).2.Allow 0).1 = false) ∧
    (((bucket.LeakyLimiter.Allow
        { capacity := 0, level := 0, rate := 0, lastUpdatedAt := 1 } 0).2.Allow 0).1 = false) ∧
    (((window.FixedLimiter.Allow
        { limit := 0, count := 0, window := 10, start := 0 } 0).2.Allow 0).1 = false) ∧
    (((window.NewSlidingLimiterWithClock 0 10).Allow 0).2.Allow 0).1 = false ∧
    (((bucket.GCRALimiter.Allow
        { tat := 100, emission := 10, limit := 10 } 0).2.Allow 0).1 = false) := by
  refine ⟨?_, ?_, ?_, ?_, ?_⟩
  · exact C6_monotone_denial.1 _ 0 (by decide)
  · exact C6_monotone_denial.2.1 _ 0
      (by norm_num [bucket.LeakyLimiter.Allow, bucket.LeakyLimiter.update])
  · exact C6_monotone_denial.2.2.1 _ 0 (by decide)
  · exact C6_monotone_denial.2.2.2.1 _ 0 (by decide)
  · exact C6_monotone_denial.2.2.2.2 _ 0 (by decide)

/-- C7: for every token bucket built from uint32 capacity and rate and
driven by an arbitrary clock sequence, the token count stays between zero
and the capacity after construction and after every Allow call, and the
stored refill timestamp never decreases across calls. -/
theorem C7_token_bucket_invariant :
    (∀ (capacity rate : ℕ) (t0 : ℤ) (ts : List ℤ),
      0 ≤ (runAllow bucket.TokenLimiter.Allow
            (bucket.NewLimiterWithClock capacity rate t0) ts).2.tokens ∧
      (runAllow bucket.TokenLimiter.Allow
          (bucket.NewLimiterWithClock capacity rate t0) ts).2.tokens ≤ (capacity : ℚ)) ∧
    (∀ (l : bucket.TokenLimiter) (t : ℤ), l.lastRefillAt ≤ (l.Allow t).2.lastRefillAt) := by
  constructor
  · intro capacity rate t0 ts
    have hinit : bucket.TBInv (bucket.NewLimiterWithClock capacity rate t0) :=
      ⟨show (0:ℚ) ≤ (capacity : ℚ) from by positivity,
       show (0:ℚ) ≤ (rate : ℚ) from by positivity,
       show (0:ℚ) ≤ (capacity : ℚ) from by positivity, le_refl _⟩
    have hrun := bucket.run_inv ts (bucket.NewLimiterWithClock capacity rate t0) hinit
    obtain ⟨⟨h1, h2, h3, h4⟩, hcap⟩ := hrun
    refine ⟨h3, ?_⟩
    rw [← show (bucket.NewLimiterWithClock capacity rate t0).capacity = (capacity : ℚ) from rfl]
    rw [← hcap]
    exact h4
  · exact bucket.allow_last_mono

/-- C8 (corrected): the stored window start after an Allow call equals the
window size times the Go truncated-toward-zero division of the nanosecond
instant by the window size; this coincides with the floor-based alignment
for all instants at or after the Unix epoch, and two limiters with the same
window always agree on the stored start. -/
theorem C8_fixed_window_alignment :
    (∀ (l : window.FixedLimiter) (now : ℤ),
      (l.Allow now).2.start = window.windowStart now l.window) ∧
    (∀ (l1 l2 : window.FixedLimiter) (now : ℤ), l1.window = l2.window →
      (l1.Allow now).2.start = (l2.Allow now).2.start) ∧
    (∀ (now w : ℤ), 0 ≤ now → 0 ≤ w →
      window.windowStart now w = now.fdiv w * w) := by
  have hstart : ∀ (l : window.FixedLimiter) (now : ℤ),
      (l.Allow now).2.start = window.windowStart now l.window := by
    intro l now
    by_cases hr : window.windowStart now l.window = l.start
    · by_cases c : (l.count + 1) % U32 ≤ l.limit
      · have : l.Allow now = (true, { l with count := (l.count + 1) % U32 }) := by
          simp only [window.FixedLimiter.Allow]
          rw [if_pos hr, if_pos c]
        rw [this]
        exact hr.symm
      · have : l.Allow now = (false, l) := by
          simp only [window.FixedLimiter.Allow]
          rw [if_pos hr, if_neg c]
        rw [this]
        exact hr.symm
    · by_cases c : (0 + 1) % U32 ≤ l.limit
      · have : l.Allow now =
            (true, { l with start := window.windowStart now l.window, count := 1 }) := by
          simp only [window.FixedLimiter.Allow]
          rw [if_neg hr, if_pos c]
          rfl
        rw [this]
      · have : l.Allow now =
            (false, { l with start := window.windowStart now l.window, count := 0 }) := by
          simp only [window.FixedLimiter.Allow]
          rw [if_neg hr, if_neg c]
        rw [this]
  refine ⟨hstart, ?_, ?_⟩
  · intro l1 l2 now hw
    rw [hstart l1 now, hstart l2 now, hw]
  · intro now w hnow hw
    unfold window.windowStart
    rw [Int.tdiv_eq_ediv hnow hw, Int.fdiv_eq_ediv now hw]

/-- C8 witness: two limiters with window 10 but different construction state
agree on the stored start after an Allow call at instant 25, and the
truncated alignment agrees with the floor alignment at the nonnegative
instant 25. -/
theorem C8_fixed_window_alignment_witness :
    (window.FixedLimiter.Allow { limit := 2, count := 0, window := 10, start := 0 } 25).2.start =
      (window.FixedLimiter.Allow { limit := 7, count := 3, window := 10, start := 10 } 25).2.start ∧
    window.windowStart 25 10 = Int.fdiv 25 10 * 10 :=
  ⟨C8_fixed_window_alignment.2.1 { limit := 2, count := 0, window := 10, start := 0 }
      { limit := 7, count := 3, window := 10, start := 10 } 25 rfl,
   C8_fixed_window_alignment.2.2 25 10 (by decide) (by decide)⟩

/-- C8 counterexample: at the pre-epoch instant minus one nanosecond with a
one-second window, the code stores window start 0, while the floor-based
alignment of the claim is minus one second: the stored start is not the
floor alignment for instants before the epoch. -/
theorem C8_fixed_window_alignment_counterexample :
    ((window.NewFixedLimiterWithClock 1 nsPerSec 0).Allow (-1)).2.start = 0 ∧
    Int.fdiv (-1) nsPerSec * nsPerSec = -nsPerSec ∧ (0:ℤ) ≠ -nsPerSec := by
  refine ⟨?_, by decide, by decide⟩
  decide

/-- C9 (corrected): for a fixed-window limiter whose limit is at most
2^32 - 2, any sequence of Allow calls whose clock readings all fall inside
one aligned window admits at most limit calls; the uint32 counter never
wraps in that regime. -/
theorem C9_fixed_window_bounded (L : ℕ) (hL : L ≤ U32 - 2) (w tc ws : ℤ) (ts : List ℤ)
    (hall : ∀ t ∈ ts,
      window.windowStart t (window.NewFixedLimiterWithClock L w tc).window = ws) :
    countTrue (runAllow window.FixedLimiter.Allow
      (window.NewFixedLimiterWithClock L w tc) ts).1 ≤ L := by
  have h := window.fw_bound_aux ts (window.NewFixedLimiterWithClock L w tc) ws hall hL
    (Nat.zero_le _)
  by_cases hs : (window.NewFixedLimiterWithClock L w tc).start = ws
  · rw [if_pos hs] at h
    simpa using h
  · rw [if_neg hs] at h
    simpa using h

/-- C9 witness: limit 2, window 10, four calls inside the window starting at
the epoch admit at most 2 requests. -/
theorem C9_fixed_window_bounded_witness :
    countTrue (runAllow window.FixedLimiter.Allow
      (window.NewFixedLimiterWithClock 2 10 0) [0, 1, 2, 3]).1 ≤ 2 :=
  C9_fixed_window_bounded 2 (by decide) 10 0 0 [0, 1, 2, 3] (by decide)

/-- C9 counterexample: with the maximal uint32 limit 2^32 - 1, a sequence of
2^32 calls at instant 0, all inside one aligned one-second window, is
admitted in full: the wrapped counter admits strictly more than the limit. -/
theorem C9_fixed_window_bounded_counterexample :
    countTrue (runAllow window.FixedLimiter.Allow
      (window.NewFixedLimiterWithClock (U32 - 1) nsPerSec 0) (List.replicate U32 0)).1 = U32 ∧
    U32 - 1 < U32 ∧
    (List.replicate U32 (0:ℤ)).all (fun t => window.windowStart t nsPerSec == 0) = true := by
  refine ⟨?_, by norm_num [U32], ?_⟩
  · rw [window.fw_maxlimit_all_true U32 (window.NewFixedLimiterWithClock (U32 - 1) nsPerSec 0)
      rfl rfl]
    exact countTrue_replicate U32
  · simp only [List.all_eq_true, List.mem_replicate]
    intro x hx
    rw [hx.2]
    decide

/-- C2 (code bug): a token Registry built with negative capacity and no
preloaded users constructs successfully, but Allow on an absent key then
discards the NewLimiter validation error, stores the nil limiter, and calls
Allow on it: the call does not return a boolean, it dereferences nil and
panics, modelled here as none. -/
theorem C2_registry_allow_nil_panic :
    token.NewRegistry (-1) 0 [] 0 =
      Except.ok { limiters := [], capacity := -1, rate := 0 } ∧
    token.Registry.Allow { limiters := [], capacity := -1, rate := 0 } ("alice") 0 = none := by
  constructor
  · rfl
  · rfl

/-- C3 (corrected): NewLimiterWithClock fails exactly when capacity or rate
is negative; NewRegistry propagates that failure for every nonempty preload
list, but with the empty preload list it succeeds even for negative
parameters because the validating constructor never runs. -/
theorem C3_negative_construction_validation :
    (∀ (c r : ℚ) (t0 : ℤ),
      isError (token.NewLimiterWithClock c r t0) = true ↔ (c < 0 ∨ r < 0)) ∧
    (∀ (c r : ℚ) (u : String) (us : List String) (t0 : ℤ), (c < 0 ∨ r < 0) →
      isError (token.NewRegistry c r (u :: us) t0) = true) ∧
    (∀ (c r : ℚ) (t0 : ℤ), isError (token.NewRegistry c r [] t0) = false) := by
  refine ⟨?_, ?_, ?_⟩
  · intro c r t0
    unfold token.NewLimiterWithClock
    by_cases hc : c < 0
    · rw [if_pos hc]
      simp [isError, hc]
    · rw [if_neg hc]
      by_cases hr : r < 0
      · rw [if_pos hr]
        simp [isError, hr]
      · rw [if_neg hr]
        simp [isError, hc, hr]
  · intro c r u us t0 h
    have herr : ∃ e, token.NewLimiterWithClock c r t0 = .error e := by
      unfold token.NewLimiterWithClock
      by_cases hc : c < 0
      · exact ⟨_, by rw [if_pos hc]⟩
      · rcases h with h | h
        · exact absurd h hc
        · exact ⟨_, by rw [if_neg hc, if_pos h]⟩
    obtain ⟨e, he⟩ := herr
    show isError (token.NewRegistry c r (u :: us) t0) = true
    unfold token.NewRegistry token.mkLimiters
    rw [he]
    rfl
  · intro c r t0
    rfl

/-- C3 witness: negative capacity or negative rate with a nonempty preload
list fails, while the empty preload list succeeds. -/
theorem C3_negative_construction_validation_witness :
    isError (token.NewLimiterWithClock (-1) 0 0) = true ∧
    isError (token.NewRegistry (-1) 0 ["alice"] 0) = true ∧
    isError (token.NewRegistry 1 (-2) ["bob"] 0) = true ∧
    isError (token.NewRegistry (-1) 0 [] 0) = false :=
  ⟨(C3_negative_construction_validation.1 (-1) 0 0).mpr (Or.inl (by decide)),
   C3_negative_construction_validation.2.1 (-1) 0 ("alice") [] 0 (Or.inl (by decide)),
   C3_negative_construction_validation.2.1 1 (-2) ("bob") [] 0 (Or.inr (by decide)),
   C3_negative_construction_validation.2.2 (-1) 0 0⟩

/-- C3 counterexample: token.NewRegistry with capacity minus one, rate zero
and the empty preload list returns success, not the error the claim
requires for every list of preloaded users. -/
theorem C3_negative_construction_validation_counterexample :
    isError (token.NewRegistry (-1) 0 [] 0) = false := by
  rfl

end Rate
